import Mathlib

/-!
Verification of the quieto debounce/coalescing engine.

Shallow embedding of the core timing algorithms of the repository:
the trailing timer-driven strategy (`strategies/trailing.py`), the
queue-driven actor strategy (`strategies/actor.py`), the adaptive EMA
delay controller (`strategies/adaptive.py`), the session manager
(`session.py`), the shared `BaseStrategy` constructor validation
(`strategies/base.py`) and the `Debouncer` facade (`core.py`).

Time is modelled as a rational number (the asyncio loop clock).  A timed
input sequence is a list of `(arrival time, payload)` pairs processed in
order.  A timer scheduled for deadline `d` fires before an arrival at
time `t` whenever `d ≤ t`; both strategy models use this same
tie-breaking convention, which reflects the single-threaded cooperative
event loop running due callbacks/timeouts before delivering an arrival.
-/

namespace Quieto

/-- Error message raised by `Debouncer._ensure_open` in `core.py`. -/
def debouncerClosedMsg : String := "Debouncer is closed"

/-- Error message raised by `BaseStrategy.__init__` for a non-positive delay. -/
def delayPositiveMsg : String := "delay must be positive"

/-- Error message raised by `BaseStrategy.__init__` for a non-positive max_wait. -/
def maxWaitPositiveMsg : String := "max_wait must be positive"

/-- Error message raised by the `Debouncer.delay` setter when the new
value exceeds `max_wait`. -/
def delayExceedsMaxWaitMsg : String := "delay must be <= max_wait"

/-- `BaseStrategy.__init__` from `strategies/base.py`: validates `delay > 0`
and, when present, `max_wait > 0`, then stores both.  It performs no
comparison between `max_wait` and `delay`. -/
def baseStrategyInit (delay : ℚ) (maxWait : Option ℚ) : Except String (ℚ × Option ℚ) :=
  if delay ≤ 0 then Except.error delayPositiveMsg
  else
    match maxWait with
    | some w => if w ≤ 0 then Except.error maxWaitPositiveMsg else Except.ok (delay, some w)
    | none => Except.ok (delay, none)

/-- State of a `TrailingDebouncer` instance (`strategies/trailing.py`).
`timerHandle` / `maxWaitHandle` hold the absolute fire times of the two
`loop.call_later` handles (`none` = no pending timer). -/
structure TrailingDebouncer (α : Type) where
  delay : ℚ
  maxWait : Option ℚ
  buffer : List α
  timerHandle : Option ℚ
  maxWaitHandle : Option ℚ
  flushEventSet : Bool
  lastBatch : List α
  closed : Bool
deriving DecidableEq

/-- `TrailingDebouncer.__init__`: empty buffer, no timers, clear event,
empty last batch, not closed. -/
def TrailingDebouncer.new (delay : ℚ) (maxWait : Option ℚ) : TrailingDebouncer α :=
  { delay := delay
    maxWait := maxWait
    buffer := []
    timerHandle := none
    maxWaitHandle := none
    flushEventSet := false
    lastBatch := []
    closed := false }

/-- `TrailingDebouncer._do_flush`: no-op on an empty buffer; otherwise cancel
both timers, swap the buffer into `_last_batch` and set the flush event. -/
def TrailingDebouncer.doFlush (s : TrailingDebouncer α) : TrailingDebouncer α :=
  if s.buffer.isEmpty then s
  else
    { s with
      timerHandle := none
      maxWaitHandle := none
      lastBatch := s.buffer
      buffer := []
      flushEventSet := true }

/-- `TrailingDebouncer.push` called at loop time `now`: arm the max-wait
timer on the empty→non-empty transition (when `max_wait` is configured),
append the message, cancel and rearm the quiet-period timer at
`now + delay`. -/
def TrailingDebouncer.push (s : TrailingDebouncer α) (now : ℚ) (msg : α) :
    TrailingDebouncer α :=
  let s1 :=
    if s.buffer.isEmpty then
      match s.maxWait with
      | some w => { s with maxWaitHandle := some (now + w) }
      | none => s
    else s
  let s2 := { s1 with buffer := s1.buffer ++ [msg] }
  { s2 with timerHandle := some (now + s2.delay) }

/-- `TrailingDebouncer.flush`: force `_do_flush` when the buffer is
non-empty, then return `_last_batch`. -/
def TrailingDebouncer.flush (s : TrailingDebouncer α) :
    TrailingDebouncer α × List α :=
  let s1 := if s.buffer.isEmpty then s else s.doFlush
  (s1, s1.lastBatch)

/-- `TrailingDebouncer.next_batch` once `_flush_event.wait()` has returned:
clear the event and return `_last_batch`. -/
def TrailingDebouncer.nextBatch (s : TrailingDebouncer α) :
    TrailingDebouncer α × List α :=
  ({ s with flushEventSet := false }, s.lastBatch)

/-- Whether a `next_batch` caller would return without suspending
(`_flush_event` is set). -/
def TrailingDebouncer.nextBatchReady (s : TrailingDebouncer α) : Bool :=
  s.flushEventSet

/-- `TrailingDebouncer.shutdown`: mark closed, force a flush, set the
flush event so waiters are released. -/
def TrailingDebouncer.shutdown (s : TrailingDebouncer α) : TrailingDebouncer α :=
  let s1 := { s with closed := true }
  let s2 := (s1.flush).1
  { s2 with flushEventSet := true }

/-- Lower a deadline to an optional cap: `min d c` when the cap `c` is
set, else `d` (the `min(deadline, max_deadline)` computation). -/
def clipTo (d : ℚ) : Option ℚ → ℚ
  | some c => min d c
  | none => d

/-- The effective pending deadline of a trailing instance: the earlier of
the quiet-period timer and the max-wait timer (the next `call_later`
callback to fire). -/
def TrailingDebouncer.effDeadline (s : TrailingDebouncer α) : Option ℚ :=
  match s.timerHandle with
  | some q => some (clipTo q s.maxWaitHandle)
  | none => s.maxWaitHandle

/-- Timed execution of a `TrailingDebouncer` over a list of timed pushes:
before each push the pending timer fires (running `_do_flush`) if its
deadline has been reached; after the last push the remaining timer fires.
Produces the list of `(flush time, batch)` pairs in flush order. -/
def trailingRun : List (ℚ × α) → TrailingDebouncer α → List (ℚ × List α)
  | [], s =>
    match s.effDeadline with
    | some d => if s.buffer.isEmpty then [] else [(d, s.buffer)]
    | none => []
  | (t, m) :: rest, s =>
    let fired : List (ℚ × List α) × TrailingDebouncer α :=
      match s.effDeadline with
      | some d =>
        if d ≤ t ∧ ¬s.buffer.isEmpty then ([(d, s.buffer)], s.doFlush) else ([], s)
      | none => ([], s)
    fired.1 ++ trailingRun rest (fired.2.push t m)

/-- Input to the actor worker: a pushed message or the `_STOP` sentinel. -/
inductive ActorInput (α : Type) where
  | msg (a : α)
  | stop
deriving DecidableEq

/-- Local state of the `debounce_actor` coroutine (`strategies/actor.py`):
`buffer`, `deadline` and `max_deadline`. -/
structure DebounceActorState (α : Type) where
  buffer : List α
  deadline : Option ℚ
  maxDeadline : Option ℚ
deriving DecidableEq

/-- Initial actor state: empty buffer, no deadlines. -/
def debounceActorInit : DebounceActorState α :=
  { buffer := [], deadline := none, maxDeadline := none }

/-- The actor's effective deadline, computed at the top of each loop
iteration: `deadline`, lowered to `max_deadline` when the latter is set;
no timeout when `deadline` is unset. -/
def DebounceActorState.effectiveDeadline (s : DebounceActorState α) : Option ℚ :=
  match s.deadline with
  | some d => some (clipTo d s.maxDeadline)
  | none => none

/-- The actor's handling of a received message at loop time `now`: arm
`max_deadline` on the empty→non-empty transition when `max_wait` is set,
append the message, set `deadline = now + delay` clipped to not exceed
`max_deadline`. -/
def DebounceActorState.receive (s : DebounceActorState α) (delay : ℚ)
    (maxWait : Option ℚ) (now : ℚ) (m : α) : DebounceActorState α :=
  let s1 :=
    if s.buffer.isEmpty then
      match maxWait with
      | some w => { s with maxDeadline := some (now + w) }
      | none => s
    else s
  let s2 := { s1 with buffer := s1.buffer ++ [m] }
  { s2 with deadline := some (clipTo (now + delay) s2.maxDeadline) }

/-- Timed execution of `debounce_actor` over a list of timed queue
arrivals.  If the effective deadline elapses before the next arrival, the
non-empty buffer is emitted to the output queue and the state is cleared
(the `TimeoutError` branch).  A `stop` sentinel emits any buffered
messages and terminates the worker, ignoring later queue items.  After
the last arrival the remaining timeout fires.  Produces the list of
`(emit time, batch)` pairs written to the output queue, in order; output
queue capacity is taken as unbounded (no backpressure). -/
def debounceActorRun (delay : ℚ) (maxWait : Option ℚ) :
    List (ℚ × ActorInput α) → DebounceActorState α → List (ℚ × List α)
  | [], s =>
    match s.effectiveDeadline with
    | some d => if s.buffer.isEmpty then [] else [(d, s.buffer)]
    | none => []
  | (t, i) :: rest, s =>
    let fired : List (ℚ × List α) × DebounceActorState α :=
      match s.effectiveDeadline with
      | some d =>
        if d ≤ t ∧ ¬s.buffer.isEmpty then ([(d, s.buffer)], debounceActorInit)
        else ([], s)
      | none => ([], s)
    match i with
    | ActorInput.stop =>
      fired.1 ++ (if fired.2.buffer.isEmpty then [] else [(t, fired.2.buffer)])
    | ActorInput.msg m =>
      fired.1 ++ debounceActorRun delay maxWait rest (fired.2.receive delay maxWait t m)

/-- View a list of timed pushes as timed actor queue arrivals. -/
def msgInputs (l : List (ℚ × α)) : List (ℚ × ActorInput α) :=
  l.map (fun p => (p.1, ActorInput.msg p.2))

/-- Tag each pushed event with its own push time: the payload of the push
at time `t` becomes the pair `(t, event)`.  The strategies treat payloads
as opaque, so running them on tagged payloads lets theorems relate a
batch element to its push time. -/
def timedPayload (l : List (ℚ × α)) : List (ℚ × (ℚ × α)) :=
  l.map (fun p => (p.1, p))

/-- State of a `CoalescingActorStrategy` instance (`strategies/actor.py`):
the input queue contents not yet consumed by the worker, the output queue
contents not yet consumed by `next_batch` callers, whether the spawned
worker task has finished, the worker's internal state, and `_last_batch`. -/
structure CoalescingActorStrategy (α : Type) where
  delay : ℚ
  maxWait : Option ℚ
  rx : List (ActorInput α)
  tx : List (List α)
  taskDone : Bool
  worker : DebounceActorState α
  lastBatch : List α
deriving DecidableEq

/-- `CoalescingActorStrategy._ensure_task`: when the worker task is not
running, spawn a fresh `debounce_actor` (fresh internal state) on the same
queues. -/
def CoalescingActorStrategy.ensureTask (st : CoalescingActorStrategy α) :
    CoalescingActorStrategy α :=
  if st.taskDone then { st with taskDone := false, worker := debounceActorInit }
  else st

/-- `CoalescingActorStrategy.push`: ensure the worker task is running,
then enqueue the message on the input queue. -/
def CoalescingActorStrategy.push (st : CoalescingActorStrategy α) (m : α) :
    CoalescingActorStrategy α :=
  let st1 := st.ensureTask
  { st1 with rx := st1.rx ++ [ActorInput.msg m] }

/-- `CoalescingActorStrategy.next_batch` at a point where the output queue
is non-empty: dequeue one batch and record it as `_last_batch`.  Returns
`none` when the output queue is empty (the caller would suspend). -/
def CoalescingActorStrategy.nextBatch (st : CoalescingActorStrategy α) :
    Option (CoalescingActorStrategy α × List α) :=
  match st.tx with
  | [] => none
  | b :: rest => some ({ st with tx := rest, lastBatch := b }, b)

/-- `CoalescingActorStrategy.flush`: returns `_last_batch`; no state
change, no forced flush (the worker keeps sole authority over timing). -/
def CoalescingActorStrategy.flush (st : CoalescingActorStrategy α) : List α :=
  st.lastBatch

/-- `CoalescingActorStrategy.shutdown`: enqueue the `_STOP` sentinel on
the input queue. -/
def CoalescingActorStrategy.shutdown (st : CoalescingActorStrategy α) :
    CoalescingActorStrategy α :=
  { st with rx := st.rx ++ [ActorInput.stop] }

/-- Repeatedly call `next_batch` up to `n` times, collecting the batches
delivered, stopping if a call would suspend. -/
def actorDrain : Nat → CoalescingActorStrategy α → List (List α)
  | 0, _ => []
  | n + 1, st =>
    match st.nextBatch with
    | none => []
    | some (st', b) => b :: actorDrain n st'

/-- State of an `AdaptiveDebouncer` (`strategies/adaptive.py`): an inner
`TrailingDebouncer`, EMA parameters and state, plus the mirrored
`BaseStrategy` fields. -/
structure AdaptiveDebouncer (α : Type) where
  delay : ℚ
  maxWait : Option ℚ
  inner : TrailingDebouncer α
  alpha : ℚ
  multiplier : ℚ
  minDelay : ℚ
  maxDelay : ℚ
  ema : ℚ
  lastTime : Option ℚ
deriving DecidableEq

/-- `AdaptiveDebouncer.__init__`: inner trailing strategy with the initial
delay, EMA zero, no last event time. -/
def AdaptiveDebouncer.new (delay : ℚ) (maxWait : Option ℚ) (alpha : ℚ)
    (multiplier : ℚ) (minDelay : ℚ) (maxDelay : ℚ) : AdaptiveDebouncer α :=
  { delay := delay
    maxWait := maxWait
    inner := TrailingDebouncer.new delay maxWait
    alpha := alpha
    multiplier := multiplier
    minDelay := minDelay
    maxDelay := maxDelay
    ema := 0
    lastTime := none }

/-- `AdaptiveDebouncer.effective_delay`: the inner strategy's current delay. -/
def AdaptiveDebouncer.effectiveDelay (s : AdaptiveDebouncer α) : ℚ :=
  s.inner.delay

/-- `AdaptiveDebouncer.push` at monotonic time `now`: when a previous
event time exists, update the EMA from the inter-arrival interval and set
the inner delay to `max(min_delay, min(max_delay, ema * multiplier))`;
record `now`; delegate the push to the inner strategy. -/
def AdaptiveDebouncer.push (s : AdaptiveDebouncer α) (now : ℚ) (m : α) :
    AdaptiveDebouncer α :=
  let s1 :=
    match s.lastTime with
    | some lt =>
      let interval := now - lt
      let newEma := s.alpha * interval + (1 - s.alpha) * s.ema
      let newDelay := max s.minDelay (min s.maxDelay (newEma * s.multiplier))
      { s with
        ema := newEma
        inner := { s.inner with delay := newDelay }
        delay := newDelay }
    | none => s
  let s2 := { s1 with lastTime := some now }
  { s2 with inner := s2.inner.push now m }

/-- State of the `Debouncer` facade (`core.py`).  The default
configuration resolves, via the registry, to a `TrailingDebouncer` (the
only registered strategy). -/
structure Debouncer (α : Type) where
  closed : Bool
  strategy : TrailingDebouncer α
deriving DecidableEq

/-- `Debouncer.push`: raise `RuntimeError("Debouncer is closed")` when
closed, otherwise delegate to the strategy's push. -/
def Debouncer.push (d : Debouncer α) (now : ℚ) (m : α) :
    Except String (Debouncer α) :=
  if d.closed then Except.error debouncerClosedMsg
  else Except.ok { d with strategy := d.strategy.push now m }

/-- `Debouncer.next_batch`: raise when closed, otherwise delegate. -/
def Debouncer.nextBatch (d : Debouncer α) :
    Except String (Debouncer α × List α) :=
  if d.closed then Except.error debouncerClosedMsg
  else
    let r := d.strategy.nextBatch
    Except.ok ({ d with strategy := r.1 }, r.2)

/-- `Debouncer.flush`: no closed-check; returns the strategy's flush
result. -/
def Debouncer.flush (d : Debouncer α) : Debouncer α × List α :=
  let r := d.strategy.flush
  ({ d with strategy := r.1 }, r.2)

/-- `Debouncer.delay` setter: validates positivity and, when `max_wait`
is set, `value ≤ max_wait`, before mutating the strategy's delay. -/
def Debouncer.setDelay (d : Debouncer α) (value : ℚ) :
    Except String (Debouncer α) :=
  if value ≤ 0 then Except.error delayPositiveMsg
  else
    match d.strategy.maxWait with
    | some w =>
      if w < value then Except.error delayExceedsMaxWaitMsg
      else Except.ok { d with strategy := { d.strategy with delay := value } }
    | none => Except.ok { d with strategy := { d.strategy with delay := value } }

/-- `Debouncer.close`: return immediately when already closed; otherwise
mark closed and shut the strategy down. -/
def Debouncer.close (d : Debouncer α) : Debouncer α :=
  if d.closed then d
  else { closed := true, strategy := d.strategy.shutdown }

/-- One session entry of the `SessionManager` (`session.py`): the
session's input queue contents and its `last_activity` timestamp. -/
structure SessionHandle (α : Type) where
  inputQueue : List (ActorInput α)
  lastActivity : ℚ
deriving DecidableEq

/-- The reaper's sleep interval in `SessionManager._gc_loop`:
`session_timeout / 2`. -/
def gcSleepInterval (sessionTimeout : ℚ) : ℚ :=
  sessionTimeout / 2

/-- The loop time of the `n`-th wake-up of the reaper task (counting from
0), each preceded by one `gcSleepInterval` sleep. -/
def gcWakeTime (sessionTimeout : ℚ) : Nat → ℚ
  | 0 => gcSleepInterval sessionTimeout
  | n + 1 => gcWakeTime sessionTimeout n + gcSleepInterval sessionTimeout

/-- A session is idle at time `now` when `now - last_activity >
session_timeout` (the `_gc_loop` test). -/
def sessionIdle (sessionTimeout now : ℚ) (h : SessionHandle α) : Prop :=
  sessionTimeout < now - h.lastActivity

instance (sessionTimeout now : ℚ) (h : SessionHandle α) :
    Decidable (sessionIdle sessionTimeout now h) := by
  unfold sessionIdle; infer_instance

/-- One iteration of `SessionManager._gc_loop` at loop time `now`: every
session whose `last_activity` is older than `session_timeout` is popped
from the map and the `_STOP` sentinel is put on its input queue.  Returns
the surviving map and the removed, stop-signalled sessions. -/
def gcIteration (sessionTimeout now : ℚ)
    (sessions : List (String × SessionHandle α)) :
    List (String × SessionHandle α) × List (String × SessionHandle α) :=
  let kept := sessions.filter
    (fun p => ¬ sessionIdle sessionTimeout now p.2)
  let removed := sessions.filter
    (fun p => sessionIdle sessionTimeout now p.2)
  (kept,
   removed.map (fun p =>
     (p.1, { p.2 with inputQueue := p.2.inputQueue ++ [ActorInput.stop] })))

/-- `SessionManager.active_sessions`: the size of the session map. -/
def activeSessions (sessions : List (String × SessionHandle α)) : Nat :=
  sessions.length

/-- The max-wait / cap timer value after the empty→non-empty arming step:
`now + w` when `max_wait = w` is configured, else the previous value. -/
def armCap (now : ℚ) (maxWait : Option ℚ) (cur : Option ℚ) : Option ℚ :=
  match maxWait with
  | some w => some (now + w)
  | none => cur

theorem clipTo_clipTo (d : ℚ) (c : Option ℚ) :
    clipTo (clipTo d c) c = clipTo d c := by
  cases c with
  | some x => simp [clipTo, min_assoc]
  | none => rfl

theorem TrailingDebouncer.push_delay (s : TrailingDebouncer α) (t : ℚ) (m : α) :
    (s.push t m).delay = s.delay := by
  unfold TrailingDebouncer.push
  cases he : s.buffer.isEmpty <;> cases hw : s.maxWait <;> simp [he, hw]

theorem TrailingDebouncer.push_maxWait (s : TrailingDebouncer α) (t : ℚ) (m : α) :
    (s.push t m).maxWait = s.maxWait := by
  unfold TrailingDebouncer.push
  cases he : s.buffer.isEmpty <;> cases hw : s.maxWait <;> simp [he, hw]

theorem TrailingDebouncer.push_buffer (s : TrailingDebouncer α) (t : ℚ) (m : α) :
    (s.push t m).buffer = s.buffer ++ [m] := by
  unfold TrailingDebouncer.push
  cases he : s.buffer.isEmpty <;> cases hw : s.maxWait <;> simp [he, hw]

theorem TrailingDebouncer.push_timerHandle (s : TrailingDebouncer α) (t : ℚ) (m : α) :
    (s.push t m).timerHandle = some (t + s.delay) := by
  unfold TrailingDebouncer.push
  cases he : s.buffer.isEmpty <;> cases hw : s.maxWait <;> simp [he, hw]

theorem TrailingDebouncer.push_maxWaitHandle (s : TrailingDebouncer α) (t : ℚ) (m : α) :
    (s.push t m).maxWaitHandle =
      if s.buffer.isEmpty then armCap t s.maxWait s.maxWaitHandle
      else s.maxWaitHandle := by
  unfold TrailingDebouncer.push armCap
  cases he : s.buffer.isEmpty <;> cases hw : s.maxWait <;> simp [he, hw]

theorem DebounceActorState.receive_buffer (a : DebounceActorState α)
    (delay : ℚ) (maxWait : Option ℚ) (now : ℚ) (m : α) :
    (a.receive delay maxWait now m).buffer = a.buffer ++ [m] := by
  unfold DebounceActorState.receive
  cases he : a.buffer.isEmpty <;> cases hw : maxWait <;> simp [he, hw]

theorem DebounceActorState.receive_maxDeadline (a : DebounceActorState α)
    (delay : ℚ) (maxWait : Option ℚ) (now : ℚ) (m : α) :
    (a.receive delay maxWait now m).maxDeadline =
      if a.buffer.isEmpty then armCap now maxWait a.maxDeadline
      else a.maxDeadline := by
  unfold DebounceActorState.receive armCap
  cases he : a.buffer.isEmpty <;> cases hw : maxWait <;> simp [he, hw]

theorem DebounceActorState.receive_deadline (a : DebounceActorState α)
    (delay : ℚ) (maxWait : Option ℚ) (now : ℚ) (m : α) :
    (a.receive delay maxWait now m).deadline =
      some (clipTo (now + delay) (a.receive delay maxWait now m).maxDeadline) := by
  unfold DebounceActorState.receive
  cases he : a.buffer.isEmpty <;> cases hw : maxWait <;> simp [he, hw]

/-- Simulation relation between a trailing-strategy state and an actor
state: same strategy parameters, same buffer, the actor's `max_deadline`
mirrors the max-wait timer, and the actor's (clipped) `deadline` equals
the quiet timer lowered to the max-wait timer.  A trailing state with no
quiet timer pending also has no max-wait timer pending (as holds in every
reachable state). -/
def TAInv (delay : ℚ) (maxWait : Option ℚ) (s : TrailingDebouncer α)
    (a : DebounceActorState α) : Prop :=
  s.delay = delay ∧ s.maxWait = maxWait ∧
  a.buffer = s.buffer ∧ a.maxDeadline = s.maxWaitHandle ∧
  (∀ q, s.timerHandle = some q → a.deadline = some (clipTo q s.maxWaitHandle)) ∧
  (s.timerHandle = none → a.deadline = none ∧ s.maxWaitHandle = none)

theorem TAInv.eff_eq {delay : ℚ} {maxWait : Option ℚ}
    {s : TrailingDebouncer α} {a : DebounceActorState α}
    (h : TAInv delay maxWait s a) :
    s.effDeadline = a.effectiveDeadline := by
  obtain ⟨-, -, -, hmd, hds, hdn⟩ := h
  unfold TrailingDebouncer.effDeadline DebounceActorState.effectiveDeadline
  cases hq : s.timerHandle with
  | some q =>
    rw [hds q hq, hmd]
    dsimp only
    rw [clipTo_clipTo]
  | none =>
    obtain ⟨h1, h2⟩ := hdn hq
    rw [h1, h2]

theorem TAInv.push {delay : ℚ} {maxWait : Option ℚ}
    {s : TrailingDebouncer α} {a : DebounceActorState α}
    (h : TAInv delay maxWait s a) (t : ℚ) (m : α) :
    TAInv delay maxWait (s.push t m) (a.receive delay maxWait t m) := by
  obtain ⟨hdel, hmw, hb, hmd, -, -⟩ := h
  have hcap : (a.receive delay maxWait t m).maxDeadline =
      (s.push t m).maxWaitHandle := by
    rw [DebounceActorState.receive_maxDeadline,
      TrailingDebouncer.push_maxWaitHandle, hb, hmd, hmw]
  refine ⟨?_, ?_, ?_, hcap, ?_, ?_⟩
  · rw [TrailingDebouncer.push_delay, hdel]
  · rw [TrailingDebouncer.push_maxWait, hmw]
  · rw [DebounceActorState.receive_buffer, TrailingDebouncer.push_buffer, hb]
  · intro q hq
    rw [TrailingDebouncer.push_timerHandle] at hq
    rw [DebounceActorState.receive_deadline, hcap]
    rw [Option.some_inj] at hq
    rw [← hq, hdel]
  · intro hq
    rw [TrailingDebouncer.push_timerHandle] at hq
    exact absurd hq (by simp)

theorem TAInv.doFlush_init {delay : ℚ} {maxWait : Option ℚ}
    {s : TrailingDebouncer α} {a : DebounceActorState α}
    (h : TAInv delay maxWait s a) (hne : ¬s.buffer.isEmpty) :
    TAInv delay maxWait s.doFlush (debounceActorInit (α := α)) := by
  obtain ⟨hdel, hmw, -, -, -, -⟩ := h
  unfold TrailingDebouncer.doFlush debounceActorInit
  rw [if_neg hne]
  exact ⟨hdel, hmw, rfl, rfl, fun q hq => by simp at hq, fun _ => ⟨rfl, rfl⟩⟩

theorem trailingRun_eq_actorRun (delay : ℚ) (maxWait : Option ℚ)
    (l : List (ℚ × α)) :
    ∀ (s : TrailingDebouncer α) (a : DebounceActorState α),
      TAInv delay maxWait s a →
      trailingRun l s = debounceActorRun delay maxWait (msgInputs l) a := by
  induction l with
  | nil =>
    intro s a h
    show (match s.effDeadline with
          | some d => if s.buffer.isEmpty then [] else [(d, s.buffer)]
          | none => []) =
         (match a.effectiveDeadline with
          | some d => if a.buffer.isEmpty then [] else [(d, a.buffer)]
          | none => [])
    rw [← h.eff_eq, h.2.2.1]
  | cons p rest ih =>
    intro s a h
    obtain ⟨t, m⟩ := p
    show (let fired : List (ℚ × List α) × TrailingDebouncer α :=
            match s.effDeadline with
            | some d =>
              if d ≤ t ∧ ¬s.buffer.isEmpty then ([(d, s.buffer)], s.doFlush)
              else ([], s)
            | none => ([], s)
          fired.1 ++ trailingRun rest (fired.2.push t m)) =
         debounceActorRun delay maxWait (msgInputs ((t, m) :: rest)) a
    have hmsg : msgInputs ((t, m) :: rest) =
        (t, ActorInput.msg m) :: msgInputs rest := rfl
    rw [hmsg]
    show _ =
      (let fired : List (ℚ × List α) × DebounceActorState α :=
         match a.effectiveDeadline with
         | some d =>
           if d ≤ t ∧ ¬a.buffer.isEmpty then ([(d, a.buffer)], debounceActorInit)
           else ([], a)
         | none => ([], a)
       fired.1 ++ debounceActorRun delay maxWait (msgInputs rest)
         (fired.2.receive delay maxWait t m))
    rw [← h.eff_eq, h.2.2.1]
    cases hd : s.effDeadline with
    | none =>
      simpa using ih _ _ (h.push t m)
    | some d =>
      by_cases hc : d ≤ t ∧ ¬s.buffer.isEmpty
      · simp only [if_pos hc]
        have := ih _ _ ((h.doFlush_init hc.2).push t m)
        simpa using this
      · simp only [if_neg hc]
        simpa using ih _ _ (h.push t m)

theorem TrailingDebouncer.doFlush_buffer (s : TrailingDebouncer α)
    (hne : ¬s.buffer.isEmpty) : s.doFlush.buffer = [] := by
  unfold TrailingDebouncer.doFlush
  rw [if_neg hne]

theorem TrailingDebouncer.doFlush_maxWait (s : TrailingDebouncer α) :
    s.doFlush.maxWait = s.maxWait := by
  unfold TrailingDebouncer.doFlush
  cases he : s.buffer.isEmpty <;> simp [he]

theorem TrailingDebouncer.doFlush_delay (s : TrailingDebouncer α) :
    s.doFlush.delay = s.delay := by
  unfold TrailingDebouncer.doFlush
  cases he : s.buffer.isEmpty <;> simp [he]

theorem trailingRun_nil (s : TrailingDebouncer α) :
    trailingRun [] s =
      match s.effDeadline with
      | some d => if s.buffer.isEmpty then [] else [(d, s.buffer)]
      | none => [] := rfl

theorem trailingRun_nil_some {s : TrailingDebouncer α} {d : ℚ}
    (h : s.effDeadline = some d) (hne : ¬s.buffer.isEmpty) :
    trailingRun [] s = [(d, s.buffer)] := by
  rw [trailingRun_nil, h]
  dsimp only
  rw [if_neg hne]

theorem trailingRun_nil_empty {s : TrailingDebouncer α}
    (he : s.buffer.isEmpty) :
    trailingRun [] s = [] := by
  rw [trailingRun_nil]
  cases s.effDeadline <;> simp [he]

theorem trailingRun_cons_none {s : TrailingDebouncer α}
    (h : s.effDeadline = none) (t : ℚ) (m : α) (rest : List (ℚ × α)) :
    trailingRun ((t, m) :: rest) s = trailingRun rest (s.push t m) := by
  show (let fired : List (ℚ × List α) × TrailingDebouncer α :=
          match s.effDeadline with
          | some d =>
            if d ≤ t ∧ ¬s.buffer.isEmpty then ([(d, s.buffer)], s.doFlush)
            else ([], s)
          | none => ([], s)
        fired.1 ++ trailingRun rest (fired.2.push t m)) = _
  rw [h]
  dsimp only
  rw [List.nil_append]

theorem trailingRun_cons_fire {s : TrailingDebouncer α} {d : ℚ}
    (h : s.effDeadline = some d) {t : ℚ} (hc : d ≤ t ∧ ¬s.buffer.isEmpty)
    (m : α) (rest : List (ℚ × α)) :
    trailingRun ((t, m) :: rest) s =
      (d, s.buffer) :: trailingRun rest (s.doFlush.push t m) := by
  show (let fired : List (ℚ × List α) × TrailingDebouncer α :=
          match s.effDeadline with
          | some e =>
            if e ≤ t ∧ ¬s.buffer.isEmpty then ([(e, s.buffer)], s.doFlush)
            else ([], s)
          | none => ([], s)
        fired.1 ++ trailingRun rest (fired.2.push t m)) = _
  rw [h]
  dsimp only
  rw [if_pos hc]
  rfl

theorem trailingRun_cons_nofire {s : TrailingDebouncer α} {d : ℚ}
    (h : s.effDeadline = some d) {t : ℚ} (hc : ¬(d ≤ t ∧ ¬s.buffer.isEmpty))
    (m : α) (rest : List (ℚ × α)) :
    trailingRun ((t, m) :: rest) s = trailingRun rest (s.push t m) := by
  show (let fired : List (ℚ × List α) × TrailingDebouncer α :=
          match s.effDeadline with
          | some e =>
            if e ≤ t ∧ ¬s.buffer.isEmpty then ([(e, s.buffer)], s.doFlush)
            else ([], s)
          | none => ([], s)
        fired.1 ++ trailingRun rest (fired.2.push t m)) = _
  rw [h]
  dsimp only
  rw [if_neg hc, List.nil_append]

/-- Every pushed event ends up in exactly one flushed batch, and batch
contents concatenate back to the arrival sequence: arrival order is
preserved within and across batches, nothing is lost or duplicated at the
flush level.  The state hypothesis (a non-empty buffer has a pending
quiet timer) holds in every reachable state. -/
theorem trailingRun_flatten (l : List (ℚ × α)) :
    ∀ s : TrailingDebouncer α, (¬s.buffer.isEmpty → s.timerHandle.isSome) →
      ((trailingRun l s).map Prod.snd).flatten = s.buffer ++ l.map Prod.snd := by
  induction l with
  | nil =>
    intro s hs
    cases he : s.buffer.isEmpty with
    | true =>
      rw [List.isEmpty_iff] at he
      rw [trailingRun_nil_empty (by rw [he]; rfl), he]
      rfl
    | false =>
      have hq := hs (by rw [he]; simp)
      rw [Option.isSome_iff_exists] at hq
      obtain ⟨q, hq⟩ := hq
      have heff : s.effDeadline = some (clipTo q s.maxWaitHandle) := by
        unfold TrailingDebouncer.effDeadline
        rw [hq]
      rw [trailingRun_nil_some heff (by rw [he]; simp)]
      simp
  | cons p rest ih =>
    intro s hs
    obtain ⟨t, m⟩ := p
    have hpush : ∀ s' : TrailingDebouncer α,
        ¬(s'.push t m).buffer.isEmpty → (s'.push t m).timerHandle.isSome := by
      intro s' _
      rw [TrailingDebouncer.push_timerHandle]
      rfl
    cases hd : s.effDeadline with
    | none =>
      rw [trailingRun_cons_none hd, ih (s.push t m) (hpush s),
        TrailingDebouncer.push_buffer]
      simp
    | some d =>
      by_cases hc : d ≤ t ∧ ¬s.buffer.isEmpty
      · rw [trailingRun_cons_fire hd hc]
        simp only [List.map_cons, List.flatten_cons]
        rw [ih (s.doFlush.push t m) (hpush s.doFlush),
          TrailingDebouncer.push_buffer, s.doFlush_buffer hc.2]
        simp
      · rw [trailingRun_cons_nofire hd hc, ih (s.push t m) (hpush s),
          TrailingDebouncer.push_buffer]
        simp

theorem TrailingDebouncer.push_empty_state {s : TrailingDebouncer α}
    (he : s.buffer.isEmpty) {w : ℚ} (hmw : s.maxWait = some w) (t : ℚ) (m : α) :
    (s.push t m).buffer = [m] ∧
    (s.push t m).timerHandle = some (t + s.delay) ∧
    (s.push t m).maxWaitHandle = some (t + w) := by
  refine ⟨?_, TrailingDebouncer.push_timerHandle s t m, ?_⟩
  · rw [TrailingDebouncer.push_buffer, List.isEmpty_iff.mp he]
    rfl
  · rw [TrailingDebouncer.push_maxWaitHandle, if_pos he, hmw]
    rfl

/-- Auxiliary invariant-carrying induction for the max-wait bound.
Payloads are instantiated with `(push time, event)` pairs so that the
bound may mention each event's own push time: whenever the buffer is
non-empty, the pending cap deadline `c` is within `w` of every buffered
event's push time and of every future push time. -/
theorem trailingRun_capBound_aux (w : ℚ) :
    ∀ (l : List (ℚ × (ℚ × α))) (s : TrailingDebouncer (ℚ × α)),
      (∀ p ∈ l, p.2.1 = p.1) →
      l.Pairwise (fun p q => p.1 ≤ q.1) →
      s.maxWait = some w →
      (¬s.buffer.isEmpty →
        ∃ q c, s.timerHandle = some q ∧ s.maxWaitHandle = some c ∧
          (∀ p ∈ s.buffer, c ≤ p.1 + w) ∧ (∀ p ∈ l, c ≤ p.1 + w)) →
      ∀ f b, (f, b) ∈ trailingRun l s → ∀ p ∈ b, f ≤ p.1 + w := by
  intro l
  induction l with
  | nil =>
    intro s _ _ _ hinv f b hmem p hp
    cases he : s.buffer.isEmpty with
    | true =>
      rw [trailingRun_nil_empty he] at hmem
      simp at hmem
    | false =>
      obtain ⟨q, c, hq, hc, hbuf, -⟩ := hinv (by rw [he]; simp)
      have heff : s.effDeadline = some (min q c) := by
        unfold TrailingDebouncer.effDeadline
        rw [hq, hc]
        rfl
      rw [trailingRun_nil_some heff (by rw [he]; simp)] at hmem
      simp only [List.mem_singleton, Prod.mk.injEq] at hmem
      rw [hmem.1]
      rw [hmem.2] at hp
      exact le_trans (min_le_right q c) (hbuf p hp)
  | cons hdp rest ih =>
    intro s hdiag hmono hmw hinv f b hmem p hp
    obtain ⟨t, pm⟩ := hdp
    have hpm : pm.1 = t := hdiag (t, pm) (List.mem_cons_self _ _)
    have hmono' := (List.pairwise_cons.mp hmono).2
    have hhead := (List.pairwise_cons.mp hmono).1
    have hdiag' : ∀ p ∈ rest, p.2.1 = p.1 :=
      fun p hp => hdiag p (List.mem_cons_of_mem _ hp)
    -- invariant after pushing onto an empty buffer at time t
    have hinvA : ∀ s' : TrailingDebouncer (ℚ × α), s'.buffer.isEmpty →
        s'.maxWait = some w →
        (¬(s'.push t pm).buffer.isEmpty →
          ∃ q c, (s'.push t pm).timerHandle = some q ∧
            (s'.push t pm).maxWaitHandle = some c ∧
            (∀ p ∈ (s'.push t pm).buffer, c ≤ p.1 + w) ∧
            (∀ p ∈ rest, c ≤ p.1 + w)) := by
      intro s' he' hmw' _
      obtain ⟨hb', ht', hm'⟩ := TrailingDebouncer.push_empty_state he' hmw' t pm
      refine ⟨t + s'.delay, t + w, ht', hm', ?_, ?_⟩
      · intro p hp
        rw [hb', List.mem_singleton] at hp
        rw [hp, hpm]
      · intro p hp
        exact add_le_add_right (hhead p hp) w
    cases he : s.buffer.isEmpty with
    | true =>
      have hrec := ih (s.push t pm) hdiag' hmono'
        (by rw [TrailingDebouncer.push_maxWait, hmw]) (hinvA s he hmw)
      cases hd : s.effDeadline with
      | none =>
        rw [trailingRun_cons_none hd] at hmem
        exact hrec f b hmem p hp
      | some d =>
        rw [trailingRun_cons_nofire hd (by rw [he]; simp) pm rest] at hmem
        exact hrec f b hmem p hp
    | false =>
      obtain ⟨q, c, hq, hc, hbuf, hfut⟩ := hinv (by rw [he]; simp)
      have heff : s.effDeadline = some (min q c) := by
        unfold TrailingDebouncer.effDeadline
        rw [hq, hc]
        rfl
      by_cases hfire : min q c ≤ t
      · have hcond : min q c ≤ t ∧ ¬s.buffer.isEmpty := ⟨hfire, by rw [he]; simp⟩
        rw [trailingRun_cons_fire heff hcond pm rest] at hmem
        rcases List.mem_cons.mp hmem with hmem1 | hmem2
        · rw [Prod.mk.injEq] at hmem1
          rw [hmem1.1]
          rw [hmem1.2] at hp
          exact le_trans (min_le_right q c) (hbuf p hp)
        · have hfe : s.doFlush.buffer.isEmpty := by
            rw [s.doFlush_buffer hcond.2]
            rfl
          have hrec := ih (s.doFlush.push t pm) hdiag' hmono'
            (by rw [TrailingDebouncer.push_maxWait, TrailingDebouncer.doFlush_maxWait, hmw])
            (hinvA s.doFlush hfe (by rw [TrailingDebouncer.doFlush_maxWait, hmw]))
          exact hrec f b hmem2 p hp
      · have hcond : ¬(min q c ≤ t ∧ ¬s.buffer.isEmpty) := fun h => hfire h.1
        rw [trailingRun_cons_nofire heff hcond pm rest] at hmem
        have hinvB : ¬(s.push t pm).buffer.isEmpty →
            ∃ q' c', (s.push t pm).timerHandle = some q' ∧
              (s.push t pm).maxWaitHandle = some c' ∧
              (∀ p ∈ (s.push t pm).buffer, c' ≤ p.1 + w) ∧
              (∀ p ∈ rest, c' ≤ p.1 + w) := by
          intro _
          refine ⟨t + s.delay, c, TrailingDebouncer.push_timerHandle s t pm, ?_, ?_, ?_⟩
          · rw [TrailingDebouncer.push_maxWaitHandle, if_neg (by rw [he]; simp), hc]
          · intro p hp
            rw [TrailingDebouncer.push_buffer] at hp
            rcases List.mem_append.mp hp with hold | hnew
            · exact hbuf p hold
            · rw [List.mem_singleton] at hnew
              rw [hnew, hpm]
              exact hfut (t, pm) (List.mem_cons_self _ _)
          · intro p hp
            exact hfut p (List.mem_cons_of_mem _ hp)
        have hrec := ih (s.push t pm) hdiag' hmono'
          (by rw [TrailingDebouncer.push_maxWait, hmw]) hinvB
        exact hrec f b hmem p hp

theorem TAInv.new_init (delay : ℚ) (maxWait : Option ℚ) :
    TAInv delay maxWait (TrailingDebouncer.new (α := α) delay maxWait)
      debounceActorInit := by
  refine ⟨rfl, rfl, rfl, rfl, ?_, fun _ => ⟨rfl, rfl⟩⟩
  intro q hq
  exact absurd hq (by simp [TrailingDebouncer.new])

/-- Claim C1: for every configuration `(delay, max_wait)` and every timed
input sequence pushed identically to both, the trailing strategy and the
actor strategy produce identical batches — the same events, the same
grouping into batches, the same order (and even the same flush times) —
since both implement the same quiet/cap deadline algorithm. -/
theorem trailing_actor_identical_batches (delay : ℚ) (maxWait : Option ℚ)
    (l : List (ℚ × α)) :
    trailingRun l (TrailingDebouncer.new delay maxWait) =
      debounceActorRun delay maxWait (msgInputs l) debounceActorInit :=
  trailingRun_eq_actorRun delay maxWait l _ _ (TAInv.new_init delay maxWait)

theorem timedPayload_diag (l : List (ℚ × α)) :
    ∀ p ∈ timedPayload l, p.2.1 = p.1 := by
  intro p hp
  unfold timedPayload at hp
  obtain ⟨q, -, rfl⟩ := List.mem_map.mp hp
  rfl

theorem timedPayload_pairwise {l : List (ℚ × α)}
    (hmono : l.Pairwise (fun p q => p.1 ≤ q.1)) :
    (timedPayload l).Pairwise (fun p q => p.1 ≤ q.1) := by
  unfold timedPayload
  exact List.pairwise_map.mpr hmono

theorem timedPayload_map_snd (l : List (ℚ × α)) :
    (timedPayload l).map Prod.snd = l := by
  unfold timedPayload
  rw [List.map_map]
  exact List.map_id l

/-- Claim C2: with `max_wait = w` set and push times monotone, every
pushed event appears in a batch flushed no later than `w` after its own
push — for the trailing strategy and for the actor strategy — and the cap
deadline is armed exactly once per buffering cycle: at the buffer's
empty→non-empty transition a push arms it at `push time + w`, and a push
onto a non-empty buffer never rearms it.  Events are tagged with their
own push times so the per-event bound can be stated. -/
theorem max_wait_bounds_flush (delay w : ℚ) (l : List (ℚ × α))
    (hmono : l.Pairwise (fun p q => p.1 ≤ q.1)) :
    (∀ f b, (f, b) ∈ trailingRun (timedPayload l)
        (TrailingDebouncer.new delay (some w)) →
      ∀ p ∈ b, f ≤ p.1 + w) ∧
    (∀ f b, (f, b) ∈ debounceActorRun delay (some w)
        (msgInputs (timedPayload l)) debounceActorInit →
      ∀ p ∈ b, f ≤ p.1 + w) ∧
    ((trailingRun (timedPayload l)
        (TrailingDebouncer.new delay (some w))).map Prod.snd).flatten = l ∧
    (∀ (t : ℚ) (m : α) (s : TrailingDebouncer α),
      ¬s.buffer.isEmpty → (s.push t m).maxWaitHandle = s.maxWaitHandle) ∧
    (∀ (t : ℚ) (m : α) (s : TrailingDebouncer α),
      s.buffer.isEmpty → s.maxWait = some w →
      (s.push t m).maxWaitHandle = some (t + w)) := by
  have hbound := trailingRun_capBound_aux w (timedPayload l)
    (TrailingDebouncer.new delay (some w)) (timedPayload_diag l)
    (timedPayload_pairwise hmono) rfl
    (fun h => absurd rfl h)
  refine ⟨hbound, ?_, ?_, ?_, ?_⟩
  · rw [← trailingRun_eq_actorRun delay (some w) (timedPayload l) _ _
      (TAInv.new_init delay (some w))]
    exact hbound
  · have hflat := trailingRun_flatten (timedPayload l)
      (TrailingDebouncer.new delay (some w)) (fun h => absurd rfl h)
    rw [hflat, timedPayload_map_snd]
    exact List.nil_append l
  · intro t m s hne
    rw [TrailingDebouncer.push_maxWaitHandle, if_neg hne]
  · intro t m s he hmw
    rw [TrailingDebouncer.push_maxWaitHandle, if_pos he, hmw]
    rfl

/-- Witness for `max_wait_bounds_flush` at `delay = 3`, `w = 10` and
pushes of events `0, 1` at times `0, 1`. -/
theorem max_wait_bounds_flush_witness :
    List.Pairwise (fun p q : ℚ × ℕ => p.1 ≤ q.1) [(0, 0), (1, 1)] ∧
    ((∀ f b, (f, b) ∈ trailingRun (timedPayload [((0:ℚ), (0:ℕ)), (1, 1)])
        (TrailingDebouncer.new 3 (some 10)) →
      ∀ p ∈ b, f ≤ p.1 + 10) ∧
    (∀ f b, (f, b) ∈ debounceActorRun 3 (some 10)
        (msgInputs (timedPayload [((0:ℚ), (0:ℕ)), (1, 1)])) debounceActorInit →
      ∀ p ∈ b, f ≤ p.1 + 10) ∧
    ((trailingRun (timedPayload [((0:ℚ), (0:ℕ)), (1, 1)])
        (TrailingDebouncer.new 3 (some 10))).map Prod.snd).flatten =
      [((0:ℚ), (0:ℕ)), (1, 1)] ∧
    (∀ (t : ℚ) (m : ℕ) (s : TrailingDebouncer ℕ),
      ¬s.buffer.isEmpty → (s.push t m).maxWaitHandle = s.maxWaitHandle) ∧
    (∀ (t : ℚ) (m : ℕ) (s : TrailingDebouncer ℕ),
      s.buffer.isEmpty → s.maxWait = some 10 →
      (s.push t m).maxWaitHandle = some (t + 10))) :=
  ⟨by decide, max_wait_bounds_flush 3 10 [((0:ℚ), (0:ℕ)), (1, 1)] (by decide)⟩

/-- `actorDrain` returns the first `n` output-queue batches, in order:
`next_batch` on the actor strategy is FIFO, one batch per call. -/
theorem actorDrain_take (n : Nat) :
    ∀ st : CoalescingActorStrategy α, actorDrain n st = st.tx.take n := by
  induction n with
  | zero =>
    intro st
    rw [List.take_zero]
    rfl
  | succ n ih =>
    intro st
    cases htx : st.tx with
    | nil =>
      show (match st.nextBatch with
            | none => []
            | some (st2, b) => b :: actorDrain n st2) = _
      unfold CoalescingActorStrategy.nextBatch
      rw [htx]
      rfl
    | cons b rest =>
      show (match st.nextBatch with
            | none => []
            | some (st2, b) => b :: actorDrain n st2) = _
      unfold CoalescingActorStrategy.nextBatch
      rw [htx]
      dsimp only
      rw [ih]
      rw [List.take_succ_cons]

/-- Claim C3 counterexample: on the trailing strategy, push `1`, force a
flush (batch `[1]`), push `2`, force a second flush (batch `[2]`); the
first `next_batch` caller to arrive then receives `[2]`, not the first
flushed batch `[1]`.  Batches are not delivered to `next_batch` callers
in flush order: the earlier batch is skipped. -/
theorem trailing_next_batch_not_fifo :
    ((((TrailingDebouncer.new (α := ℕ) 1 none).push 0 1).flush).2 = [1] ∧
     (((((TrailingDebouncer.new (α := ℕ) 1 none).push 0 1).flush).1.push 0 2).flush).2 = [2] ∧
     ((((((TrailingDebouncer.new (α := ℕ) 1 none).push 0 1).flush).1.push 0 2).flush).1.nextBatch).2 = [2]) ∧
    ¬ ((((((TrailingDebouncer.new (α := ℕ) 1 none).push 0 1).flush).1.push 0 2).flush).1.nextBatch).2 =
      (((TrailingDebouncer.new (α := ℕ) 1 none).push 0 1).flush).2 := by
  decide

/-- Claim C3 (amended): within one strategy instance, events appear in
batches in arrival order and every pushed event lands in exactly one
flushed batch (the batches concatenate to the arrival sequence); the
actor strategy delivers batches to `next_batch` callers FIFO from its
output queue, exactly one batch per call, none repeated or skipped; the
trailing strategy instead hands every `next_batch` caller the most
recently flushed batch (`_last_batch`), so flushes that race ahead of
consumers are skipped there. -/
theorem batch_order_and_delivery (l : List (ℚ × α)) (delay : ℚ)
    (mw : Option ℚ) (st : CoalescingActorStrategy α) (n : Nat) :
    ((trailingRun l (TrailingDebouncer.new delay mw)).map Prod.snd).flatten
        = l.map Prod.snd ∧
    actorDrain n st = st.tx.take n ∧
    (∀ s : TrailingDebouncer α, s.nextBatch.2 = s.lastBatch) := by
  refine ⟨?_, actorDrain_take n st, fun s => rfl⟩
  have h := trailingRun_flatten l (TrailingDebouncer.new (α := α) delay mw)
    (fun h => absurd rfl h)
  rw [h]
  exact List.nil_append _

/-- Claim C4 counterexample: push `1` then flush; the buffer is now
empty, yet a second `flush()` returns `[1]` — the previously flushed
batch — and not the empty batch. -/
theorem flush_empty_returns_last_batch :
    ((((TrailingDebouncer.new (α := ℕ) 1 none).push 0 1).flush).1.buffer = [] ∧
     (((((TrailingDebouncer.new (α := ℕ) 1 none).push 0 1).flush).1.flush).2 = [1])) ∧
    ¬ ((((TrailingDebouncer.new (α := ℕ) 1 none).push 0 1).flush).1.flush).2 = [] := by
  decide

/-- Claim C4 (amended): `flush()` with an empty buffer has no other
effect — the state is returned unchanged, no timer is touched, no waiter
released — but it returns `_last_batch`, the last previously flushed
batch, which is empty only when nothing was ever flushed.  On a fresh
instance it does return the empty batch; the actor strategy's `flush`
likewise returns `_last_batch` without touching state. -/
theorem flush_empty_noop (s : TrailingDebouncer α) (he : s.buffer = [])
    (delay : ℚ) (mw : Option ℚ) (st : CoalescingActorStrategy α) :
    s.flush = (s, s.lastBatch) ∧
    ((TrailingDebouncer.new (α := α) delay mw).flush).2 = [] ∧
    st.flush = st.lastBatch := by
  refine ⟨?_, rfl, rfl⟩
  unfold TrailingDebouncer.flush
  rw [he]
  rfl

/-- Witness for `flush_empty_noop`: the state reached by pushing `1` and
flushing has an empty buffer; a second flush leaves it unchanged and
returns `_last_batch`. -/
theorem flush_empty_noop_witness :
    (let s := (((TrailingDebouncer.new (α := ℕ) 1 none).push 0 1).flush).1
     let st : CoalescingActorStrategy ℕ :=
       { delay := 1, maxWait := none, rx := [], tx := [], taskDone := false,
         worker := debounceActorInit, lastBatch := [] }
     s.buffer = [] ∧
       (s.flush = (s, s.lastBatch) ∧
        ((TrailingDebouncer.new (α := ℕ) 2 none).flush).2 = [] ∧
        st.flush = st.lastBatch)) :=
  ⟨by decide, flush_empty_noop _ (by decide) 2 none _⟩


/-- Claim C5 (code bug): `BaseStrategy.__init__` accepts `max_wait = 1`
with `delay = 5` — it validates only positivity and never compares
`max_wait` against `delay`, contradicting its own docstring ("When set,
must be >= delay") — and the adaptive controller's push mutates the
delay with no revalidation against `max_wait`: with `delay = 1`,
`max_wait = 2`, `alpha = 1`, `multiplier = 100`, `min_delay = 1`,
`max_delay = 5`, a second push one second after the first drives the
effective delay to `5 > max_wait = 2`. -/
theorem construction_accepts_max_wait_below_delay :
    baseStrategyInit 5 (some 1) = Except.ok (5, some 1) ∧
    (let s0 := AdaptiveDebouncer.new (α := ℕ) 1 (some 2) 1 100 1 5
     let s2 := (s0.push 0 0).push 1 0
     s2.effectiveDelay = 5 ∧ s2.maxWait = some 2 ∧ ¬s2.effectiveDelay ≤ 2) := by
  refine ⟨rfl, ?_, by decide, ?_⟩
  · simp [AdaptiveDebouncer.new, AdaptiveDebouncer.push,
      AdaptiveDebouncer.effectiveDelay, TrailingDebouncer.push,
      TrailingDebouncer.new]
    norm_num
  · simp [AdaptiveDebouncer.new, AdaptiveDebouncer.push,
      AdaptiveDebouncer.effectiveDelay, TrailingDebouncer.push,
      TrailingDebouncer.new]
    norm_num

/-- Claim C6 (code bug): sending the stop sentinel to the actor with an
empty buffer makes the worker terminate without emitting anything to the
output queue, and a `next_batch` caller on an empty output queue gets
nothing to dequeue — it stays suspended forever instead of being
unblocked with an empty batch. -/
theorem actor_shutdown_empty_buffer_strands_waiter :
    debounceActorRun 1 none [((0:ℚ), (ActorInput.stop : ActorInput ℕ))]
        debounceActorInit = [] ∧
    ({ delay := 1, maxWait := none, rx := [], tx := [], taskDone := true,
       worker := debounceActorInit, lastBatch := [] } :
         CoalescingActorStrategy ℕ).nextBatch = none := by
  exact ⟨rfl, rfl⟩

/-- Claim C7 counterexample: an adaptive controller constructed with
initial `delay = 10` but `max_delay = 5` (with `alpha = 1`,
`multiplier = 2`, `min_delay = 1`): before any adaptation — including
right after the very first push — the effective delay is `10`, outside
`[min_delay, max_delay]`.  "effective_delay is always within
[min_delay, max_delay]" is false. -/
theorem adaptive_initial_delay_outside_range :
    (let s0 := AdaptiveDebouncer.new (α := ℕ) 10 none 1 2 1 5
     let s1 := s0.push 0 0
     s0.effectiveDelay = 10 ∧ s1.effectiveDelay = 10 ∧
       s1.minDelay = 1 ∧ s1.maxDelay = 5 ∧
       ¬s1.effectiveDelay ≤ s1.maxDelay) := by
  refine ⟨by decide, by decide, by decide, by decide, by decide⟩

/-- Claim C7 (amended): the very first push leaves `effective_delay` (and
the EMA) unchanged and only records the event time; on every later push
with `interval = now - last_time`, the controller sets
`ema := alpha * interval + (1 - alpha) * ema` and the inner delay to
`clamp(ema * multiplier, min_delay, max_delay)`; after any push that
follows an earlier one (given `min_delay ≤ max_delay`) the effective
delay lies within `[min_delay, max_delay]` — before the first adaptation
it equals the configured initial delay, which may lie outside that
range. -/
theorem adaptive_push_spec (s : AdaptiveDebouncer α) (now : ℚ) (m : α) :
    (s.lastTime = none →
      (s.push now m).effectiveDelay = s.effectiveDelay ∧
      (s.push now m).ema = s.ema ∧
      (s.push now m).lastTime = some now) ∧
    (∀ lt, s.lastTime = some lt →
      (s.push now m).ema = s.alpha * (now - lt) + (1 - s.alpha) * s.ema ∧
      (s.push now m).effectiveDelay =
        max s.minDelay (min s.maxDelay
          ((s.alpha * (now - lt) + (1 - s.alpha) * s.ema) * s.multiplier)) ∧
      (s.push now m).lastTime = some now ∧
      (s.minDelay ≤ s.maxDelay →
        s.minDelay ≤ (s.push now m).effectiveDelay ∧
        (s.push now m).effectiveDelay ≤ s.maxDelay)) := by
  constructor
  · intro hlt
    unfold AdaptiveDebouncer.push AdaptiveDebouncer.effectiveDelay
    rw [hlt]
    exact ⟨TrailingDebouncer.push_delay _ _ _, rfl, rfl⟩
  · intro lt hlt
    unfold AdaptiveDebouncer.push AdaptiveDebouncer.effectiveDelay
    rw [hlt]
    refine ⟨rfl, ?_, rfl, ?_⟩
    · exact TrailingDebouncer.push_delay _ _ _
    · intro hrange
      rw [TrailingDebouncer.push_delay]
      dsimp only
      constructor
      · exact le_max_left _ _
      · exact max_le hrange (min_le_left _ _)

/-- Witness for `adaptive_push_spec`: the controller with
`delay = 1`, `alpha = 1`, `multiplier = 2`, range `[1, 5]`, after a
first push at `t = 0`, then pushed again at `t = 1`: the adapted delay
stays inside the range. -/
theorem adaptive_push_spec_witness :
    (let s1 := (AdaptiveDebouncer.new (α := ℕ) 1 none 1 2 1 5).push 0 0
     s1.lastTime = some 0 ∧ s1.minDelay ≤ s1.maxDelay ∧
       (s1.minDelay ≤ (s1.push 1 0).effectiveDelay ∧
        (s1.push 1 0).effectiveDelay ≤ s1.maxDelay)) :=
  ⟨by decide, by decide,
   ((adaptive_push_spec ((AdaptiveDebouncer.new (α := ℕ) 1 none 1 2 1 5).push 0 0)
       1 0).2 0 (by decide)).2.2.2 (by decide)⟩


/-- Processing the stop sentinel flushes a non-empty buffer to the output
queue before the worker terminates. -/
theorem actor_stop_flushes (delay : ℚ) (maxWait : Option ℚ) (t : ℚ)
    (a : DebounceActorState α) (hne : ¬a.buffer.isEmpty) :
    ∃ f, debounceActorRun delay maxWait [(t, ActorInput.stop)] a =
      [(f, a.buffer)] := by
  cases hd : a.effectiveDeadline with
  | none =>
    refine ⟨t, ?_⟩
    show (let fired : List (ℚ × List α) × DebounceActorState α :=
            match a.effectiveDeadline with
            | some d =>
              if d ≤ t ∧ ¬a.buffer.isEmpty then ([(d, a.buffer)], debounceActorInit)
              else ([], a)
            | none => ([], a)
          fired.1 ++ (if fired.2.buffer.isEmpty then [] else [(t, fired.2.buffer)])) = _
    rw [hd]
    dsimp only
    rw [if_neg hne, List.nil_append]
  | some d =>
    by_cases hc : d ≤ t
    · refine ⟨d, ?_⟩
      show (let fired : List (ℚ × List α) × DebounceActorState α :=
              match a.effectiveDeadline with
              | some e =>
                if e ≤ t ∧ ¬a.buffer.isEmpty then ([(e, a.buffer)], debounceActorInit)
                else ([], a)
              | none => ([], a)
            fired.1 ++ (if fired.2.buffer.isEmpty then [] else [(t, fired.2.buffer)])) = _
      rw [hd]
      dsimp only
      rw [if_pos ⟨hc, hne⟩]
      rfl
    · refine ⟨t, ?_⟩
      show (let fired : List (ℚ × List α) × DebounceActorState α :=
              match a.effectiveDeadline with
              | some e =>
                if e ≤ t ∧ ¬a.buffer.isEmpty then ([(e, a.buffer)], debounceActorInit)
                else ([], a)
              | none => ([], a)
            fired.1 ++ (if fired.2.buffer.isEmpty then [] else [(t, fired.2.buffer)])) = _
      rw [hd]
      dsimp only
      rw [if_neg (fun h => hc h.1), List.nil_append, if_neg hne]

theorem filter_length_partition (l : List β) (f : β → Bool) :
    (l.filter f).length + (l.filter (fun x => !(f x))).length = l.length := by
  induction l with
  | nil => rfl
  | cons x xs ih =>
    cases hf : f x <;> simp [List.filter, hf, ← ih] <;> omega

/-- Claim C8: the session reaper wakes every `session_timeout / 2`; one
iteration removes from the map exactly the sessions whose
`last_activity` is older than `session_timeout`, appending the stop
sentinel to each removed session's input queue — on processing it, the
session's actor flushes any buffered-but-unflushed content to its output
queue before terminating — and `active_sessions` (the map size) drops by
the number of reaped sessions. -/
theorem session_reaper (sessionTimeout now : ℚ) (n : Nat)
    (ss : List (String × SessionHandle α)) (delay : ℚ) (mw : Option ℚ)
    (t : ℚ) (a : DebounceActorState α) (hne : ¬a.buffer.isEmpty) :
    gcWakeTime sessionTimeout (n + 1) - gcWakeTime sessionTimeout n =
      sessionTimeout / 2 ∧
    (∀ p ∈ (gcIteration sessionTimeout now ss).1,
      ¬ sessionIdle sessionTimeout now p.2) ∧
    (∀ p ∈ (gcIteration sessionTimeout now ss).2,
      sessionIdle sessionTimeout now p.2 ∧
      p.2.inputQueue.getLast? = some ActorInput.stop) ∧
    activeSessions (gcIteration sessionTimeout now ss).1 +
      (gcIteration sessionTimeout now ss).2.length = activeSessions ss ∧
    (∃ f, debounceActorRun delay mw [(t, ActorInput.stop)] a =
      [(f, a.buffer)]) := by
  refine ⟨?_, ?_, ?_, ?_, actor_stop_flushes delay mw t a hne⟩
  · show gcWakeTime sessionTimeout n + gcSleepInterval sessionTimeout -
      gcWakeTime sessionTimeout n = sessionTimeout / 2
    rw [add_sub_cancel_left]
    rfl
  · intro p hp
    have := List.mem_filter.mp hp
    exact of_decide_eq_true this.2
  · intro p hp
    obtain ⟨q, hq, rfl⟩ := List.mem_map.mp hp
    have hidle := of_decide_eq_true (List.mem_filter.mp hq).2
    refine ⟨hidle, ?_⟩
    show (q.2.inputQueue ++ [ActorInput.stop]).getLast? = some ActorInput.stop
    rw [List.getLast?_append_cons]
    rfl
  · show (ss.filter _).length + ((ss.filter _).map _).length = ss.length
    rw [List.length_map]
    have hfun : (fun p : String × SessionHandle α =>
        !(decide (¬ sessionIdle sessionTimeout now p.2))) =
        (fun p : String × SessionHandle α =>
          decide (sessionIdle sessionTimeout now p.2)) := by
      funext p
      rw [decide_not, Bool.not_not]
    rw [← hfun]
    exact filter_length_partition ss _

/-- Witness for `session_reaper`: timeout 10, a fresh session at
`last_activity = 95` and a stale one at `last_activity = 80`, inspected
at `now = 100`; a worker holding one buffered event flushes it on stop. -/
theorem session_reaper_witness :
    ¬({ buffer := [7], deadline := some 3,
        maxDeadline := none } : DebounceActorState ℕ).buffer.isEmpty ∧
    (gcWakeTime 10 1 - gcWakeTime 10 0 = 10 / 2 ∧
     (∀ p ∈ (gcIteration 10 100
         [("fresh", ({ inputQueue := [], lastActivity := 95 } : SessionHandle ℕ)),
          ("stale", ({ inputQueue := [], lastActivity := 80 } : SessionHandle ℕ))]).1,
       ¬ sessionIdle 10 100 p.2) ∧
     (∀ p ∈ (gcIteration 10 100
         [("fresh", ({ inputQueue := [], lastActivity := 95 } : SessionHandle ℕ)),
          ("stale", ({ inputQueue := [], lastActivity := 80 } : SessionHandle ℕ))]).2,
       sessionIdle 10 100 p.2 ∧
       p.2.inputQueue.getLast? = some ActorInput.stop) ∧
     activeSessions (gcIteration 10 100
         [("fresh", ({ inputQueue := [], lastActivity := 95 } : SessionHandle ℕ)),
          ("stale", ({ inputQueue := [], lastActivity := 80 } : SessionHandle ℕ))]).1 +
       (gcIteration 10 100
         [("fresh", ({ inputQueue := [], lastActivity := 95 } : SessionHandle ℕ)),
          ("stale", ({ inputQueue := [], lastActivity := 80 } : SessionHandle ℕ))]).2.length =
       activeSessions
         [("fresh", ({ inputQueue := [], lastActivity := 95 } : SessionHandle ℕ)),
          ("stale", ({ inputQueue := [], lastActivity := 80 } : SessionHandle ℕ))] ∧
     (∃ f, debounceActorRun 2 (some 10) [(4, ActorInput.stop)]
         ({ buffer := [7], deadline := some 3,
            maxDeadline := none } : DebounceActorState ℕ) = [(f, [7])])) :=
  ⟨by decide,
   session_reaper 10 100 0
     [("fresh", ({ inputQueue := [], lastActivity := 95 } : SessionHandle ℕ)),
      ("stale", ({ inputQueue := [], lastActivity := 80 } : SessionHandle ℕ))]
     2 (some 10) 4
     ({ buffer := [7], deadline := some 3, maxDeadline := none })
     (by decide)⟩


/-- Claim C9: after `close()` every `push` and `next_batch` on the
`Debouncer` facade raises `RuntimeError("Debouncer is closed")`, whereas
`flush()` never raises and still returns the strategy's flush result;
`close()` is idempotent, and a second call on an already-closed facade
leaves the state completely unchanged. -/
theorem debouncer_close_semantics (d : Debouncer α) (now : ℚ) (m : α) :
    (d.closed = true → d.push now m = Except.error debouncerClosedMsg) ∧
    (d.closed = true → d.nextBatch = Except.error debouncerClosedMsg) ∧
    (d.flush).2 = (d.strategy.flush).2 ∧
    d.close.close = d.close ∧
    (d.closed = true → d.close = d) := by
  refine ⟨?_, ?_, rfl, ?_, ?_⟩
  · intro h
    unfold Debouncer.push
    rw [if_pos h]
  · intro h
    unfold Debouncer.nextBatch
    rw [if_pos h]
  · by_cases h : d.closed = true
    · simp [Debouncer.close, h]
    · show d.close.close = d.close
      unfold Debouncer.close
      rw [if_neg h]
      rfl
  · intro h
    unfold Debouncer.close
    rw [if_pos h]

/-- Witness for `debouncer_close_semantics`: a closed facade over a fresh
trailing strategy rejects `push`/`next_batch`, flushes normally, and a
repeated `close` changes nothing. -/
theorem debouncer_close_semantics_witness :
    (let d : Debouncer ℕ :=
       { closed := true, strategy := TrailingDebouncer.new 2 (some 10) }
     d.push 0 5 = Except.error debouncerClosedMsg ∧
       d.nextBatch = Except.error debouncerClosedMsg ∧
       (d.flush).2 = (d.strategy.flush).2 ∧
       d.close.close = d.close ∧
       d.close = d) :=
  ⟨(debouncer_close_semantics
      ({ closed := true, strategy := TrailingDebouncer.new 2 (some 10) }) 0 5).1 rfl,
   (debouncer_close_semantics
      ({ closed := true, strategy := TrailingDebouncer.new 2 (some 10) }) 0 5).2.1 rfl,
   (debouncer_close_semantics
      ({ closed := true, strategy := TrailingDebouncer.new 2 (some 10) }) 0 5).2.2.1,
   (debouncer_close_semantics
      ({ closed := true, strategy := TrailingDebouncer.new 2 (some 10) }) 0 5).2.2.2.1,
   (debouncer_close_semantics
      ({ closed := true, strategy := TrailingDebouncer.new 2 (some 10) }) 0 5).2.2.2.2 rfl⟩

/-- A single message pushed to a fresh actor worker is delivered: the
worker debounces it and emits it as a singleton batch when the deadline
expires. -/
theorem actor_run_single_msg (delay : ℚ) (mw : Option ℚ) (t : ℚ) (m : α) :
    ∃ f, debounceActorRun delay mw [(t, ActorInput.msg m)] debounceActorInit =
      [(f, [m])] := by
  cases mw with
  | none => exact ⟨_, rfl⟩
  | some w => exact ⟨_, rfl⟩

/-- Claim C10: `push` on the actor strategy after shutdown is silently
accepted, never rejected: when the worker task has finished, `push`
re-spawns a fresh worker on the same queues and enqueues the event, and
the fresh worker eventually delivers that event in a later batch rather
than dropping it. -/
theorem actor_push_after_shutdown (st : CoalescingActorStrategy α) (m : α)
    (t : ℚ) (hdone : st.taskDone = true) (hrx : st.rx = []) :
    (st.push m).taskDone = false ∧
    (st.push m).worker = debounceActorInit ∧
    (st.push m).rx = [ActorInput.msg m] ∧
    (∃ f b, debounceActorRun st.delay st.maxWait [(t, ActorInput.msg m)]
        (st.push m).worker = [(f, b)] ∧ m ∈ b) := by
  have hstep : st.push m =
      { st with taskDone := false, worker := debounceActorInit,
                rx := st.rx ++ [ActorInput.msg m] } := by
    unfold CoalescingActorStrategy.push CoalescingActorStrategy.ensureTask
    rw [if_pos hdone]
  rw [hstep, hrx]
  obtain ⟨f, hf⟩ := actor_run_single_msg st.delay st.maxWait t m
  exact ⟨rfl, rfl, rfl, f, [m], hf, List.mem_singleton_self m⟩

/-- Witness for `actor_push_after_shutdown`: a strategy whose worker has
consumed the stop sentinel and exited (empty input queue, task done);
pushing `5` re-spawns the worker and `5` is delivered in a batch. -/
theorem actor_push_after_shutdown_witness :
    (let st : CoalescingActorStrategy ℕ :=
       { delay := 1, maxWait := none, rx := [], tx := [], taskDone := true,
         worker := debounceActorInit, lastBatch := [] }
     st.taskDone = true ∧ st.rx = [] ∧
       ((st.push 5).taskDone = false ∧
        (st.push 5).worker = debounceActorInit ∧
        (st.push 5).rx = [ActorInput.msg 5] ∧
        (∃ f b, debounceActorRun st.delay st.maxWait [(0, ActorInput.msg 5)]
            (st.push 5).worker = [(f, b)] ∧ 5 ∈ b))) :=
  ⟨rfl, rfl,
   actor_push_after_shutdown
     ({ delay := 1, maxWait := none, rx := [], tx := [], taskDone := true,
        worker := debounceActorInit, lastBatch := [] }) 5 0 rfl rfl⟩


end Quieto
